import Mathlib

/-!
# A verification development of the `deno_otp` HOTP/TOTP library

This file gives a shallow embedding, in Lean, of the code-generation and
validation core of the `deno_otp` library (`src/util.ts`, `src/otp.ts`,
`src/hotp.ts`, `src/totp.ts`), together with theorems about it.

Modelling conventions:

* JavaScript `Uint8Array` values are `List Nat` whose elements are below 256;
  JavaScript strings are `List Char`.
* Machine integers are `Nat`/`Int` with explicit wrap-around (`% 2 ^ 32`)
  where the code performs 32-bit operations.
* Code that can throw is modelled with `Except String`; the error string
  records which failure fired.
* Functions on the concrete-evaluation path use structural (fuel) recursion
  so that they reduce inside the kernel.
* `crypto.subtle` (the WebCrypto HMAC used by `calculateHmacDigest`) is
  platform code, not part of the repository; it is modelled by the standard
  HMAC-SHA-1 of RFC 2104 / RFC 3174 below.
-/

set_option linter.unusedVariables false
set_option maxRecDepth 1000000

/-- The space character, written via its code point. -/
def spaceChar : Char := Char.ofNat 32

/-- The zero digit character, written via its code point. -/
def zeroChar : Char := Char.ofNat 48

/-- Reduce a value to its low 32 bits (machine-word wrap-around). -/
def u32 (x : Nat) : Nat := x % 4294967296

/-- Left-rotation of a 32-bit word by `n` places (`n < 32`, argument below
    `2 ^ 32`). -/
def rotl (n x : Nat) : Nat := u32 (x * 2 ^ n) ||| x / 2 ^ (32 - n)

/-- The four bytes of a 32-bit word, most significant first. -/
def wordBytes (w : Nat) : List Nat :=
  [w / 2 ^ 24 % 256, w / 2 ^ 16 % 256, w / 2 ^ 8 % 256, w % 256]

/-- Big-endian fixed-width byte representation: `n` bytes, most significant
    first, low bytes taken from the value. -/
def beFixed : Nat → Nat → List Nat
  | 0, _ => []
  | n + 1, v => beFixed n (v / 256) ++ [v % 256]

/-- The base-256 digits of a value, most significant first, with explicit
    fuel so that the kernel can evaluate it; `beDigits` instantiates the fuel
    with the value itself, which always suffices. This is the byte list built
    by the `do … while` loop of `numberToBytes` in `src/util.ts`: the loop
    body runs at least once, so `0` yields `[0]`. -/
def beDigitsAux : Nat → Nat → List Nat
  | 0, v => [v % 256]
  | fuel + 1, v => if v < 256 then [v] else beDigitsAux fuel (v / 256) ++ [v % 256]

/-- The base-256 digits of a value, most significant first (at least one
    digit). -/
def beDigits (v : Nat) : List Nat := beDigitsAux v v

/-- `numberToBytes` from `src/util.ts`: fill an array with the base-256
    digits of the value (the loop runs at least once), then left-pad with
    zeros to `byteArrayLen` bytes; throw when the digits do not fit. -/
def numberToBytes (value : Nat) (byteArrayLen : Nat := 8) : Except String (List Nat) :=
  let preparedArray := beDigits value
  if byteArrayLen < preparedArray.length then
    .error ("The amount of bytes of the provided value exceeds the limit of the arraylength you provided!")
  else
    .ok (List.replicate (byteArrayLen - preparedArray.length) 0 ++ preparedArray)

/-- `bytesToUInt32BE` from `src/util.ts`: `new DataView(bytes.buffer).getUint32(0)`
    reads the first four bytes big-endian and throws a `RangeError` when the
    buffer holds fewer than four bytes. -/
def bytesToUInt32BE : List Nat → Except String Nat
  | b0 :: b1 :: b2 :: b3 :: _ => .ok (b0 * 2 ^ 24 + b1 * 2 ^ 16 + b2 * 2 ^ 8 + b3)
  | _ => .error ("RangeError: Offset is outside the bounds of the DataView")

/-- `extractCodeFromHmacShaDigest` from `src/util.ts`: RFC 4226 dynamic
    truncation. The offset is the low nibble of the last byte
    (`digest.at(digest.length - 1)` is `undefined` on an empty digest, which
    throws); `digest.slice(offset, offset + 4)` clamps, so a too-short
    digest surfaces as the `RangeError` of `bytesToUInt32BE`. -/
def extractCodeFromHmacShaDigest (digest : List Nat) (digits : Nat) : Except String Nat :=
  match digest.getLast? with
  | none => .error ("Digest not valid!")
  | some lastByte =>
    let dynamicOffset := lastByte &&& 15
    match bytesToUInt32BE ((digest.drop dynamicOffset).take 4) with
    | .error e => .error e
    | .ok digestAsInt => .ok ((digestAsInt &&& 2147483647) % 10 ^ digits)

/-- `cleanUserInputFormat` from `src/util.ts`: remove spaces, then
    uppercase. -/
def cleanUserInputFormat (input : List Char) : List Char :=
  (input.filter (fun c => decide (c ≠ spaceChar))).map Char.toUpper

/-- One pass of the `do … while` loop body of `numberToBytes`, on a
    JavaScript integer of either sign: `value & 0xff` is `ToInt32` followed
    by a bitwise mask, which for any mathematical integer equals the
    non-negative residue `value mod 256` (the reduction modulo `2 ^ 32`
    performed by `ToInt32` preserves the low eight bits); the loop then
    replaces `value` with `(value - (value & 0xff)) / 256`, an exact
    division. -/
def n2bStep (value : Int) : Int := (value - value % 256) / 256

/-- Iterate the `numberToBytes` loop body `n` times. -/
def n2bIter : Nat → Int → Int
  | 0, v => v
  | n + 1, v => n2bIter n (n2bStep v)

/-- Split a byte list into 64-byte blocks (structural fuel recursion; the
    fuel is the list length, which always suffices because every step
    consumes at least one element). -/
def chunksAux : Nat → List Nat → List (List Nat)
  | 0, _ => []
  | _, [] => []
  | fuel + 1, l => l.take 64 :: chunksAux fuel (l.drop 64)

/-- Split a byte list into 64-byte blocks. -/
def chunks64 (l : List Nat) : List (List Nat) := chunksAux l.length l

/-- SHA-1 message padding (RFC 3174): append `0x80`, zero bytes until the
    length is 56 modulo 64, then the 64-bit big-endian bit length. -/
def sha1Pad (msg : List Nat) : List Nat :=
  msg ++ [128] ++ List.replicate ((119 - msg.length % 64) % 64) 0 ++
    beFixed 8 (msg.length * 8)

/-- The SHA-1 round constant for round `t`. -/
def sha1K (t : Nat) : Nat :=
  if t < 20 then 1518500249
  else if t < 40 then 1859775393
  else if t < 60 then 2400959708
  else 3395469782

/-- The SHA-1 round mixing function for round `t` (bitwise complement
    written as xor with the all-ones 32-bit word). -/
def sha1F (t b c d : Nat) : Nat :=
  if t < 20 then (b &&& c) ||| ((b ^^^ 4294967295) &&& d)
  else if t < 40 then b ^^^ c ^^^ d
  else if t < 60 then (b &&& c) ||| (b &&& d) ||| (c &&& d)
  else b ^^^ c ^^^ d

/-- Group a byte list into 32-bit big-endian words (callers pass lists whose
    length is a multiple of four). -/
def beWords : List Nat → List Nat
  | b0 :: b1 :: b2 :: b3 :: rest =>
    (b0 * 2 ^ 24 + b1 * 2 ^ 16 + b2 * 2 ^ 8 + b3) :: beWords rest
  | _ => []

/-- Extend the 16 message words of a block to 80, kept in reverse order:
    each new word is `rotl 1 (w[t-3] ^^^ w[t-8] ^^^ w[t-14] ^^^ w[t-16])`. -/
def sha1ExtendRev : List Nat → Nat → List Nat
  | rw, 0 => rw
  | rw, n + 1 =>
    sha1ExtendRev
      (rotl 1 (rw.getD 2 0 ^^^ rw.getD 7 0 ^^^ rw.getD 13 0 ^^^ rw.getD 15 0) :: rw) n

/-- One SHA-1 round on the five-word state, fed the round index and message
    word. -/
def sha1Round (st : Nat × Nat × Nat × Nat × Nat) (tw : Nat × Nat) :
    Nat × Nat × Nat × Nat × Nat :=
  match st, tw with
  | (a, b, c, d, e), (t, w) =>
    (u32 (rotl 5 a + sha1F t b c d + e + sha1K t + w), a, rotl 30 b, c, d)

/-- Compress one 64-byte block into the running SHA-1 state. -/
def sha1Block (h : Nat × Nat × Nat × Nat × Nat) (block : List Nat) :
    Nat × Nat × Nat × Nat × Nat :=
  let w := (sha1ExtendRev (beWords block).reverse 64).reverse
  match ((List.range 80).zip w).foldl sha1Round h with
  | (a, b, c, d, e) =>
    (u32 (h.1 + a), u32 (h.2.1 + b), u32 (h.2.2.1 + c), u32 (h.2.2.2.1 + d),
      u32 (h.2.2.2.2 + e))

/-- Modelled from the spec: the SHA-1 hash of a byte list, as its 20-byte
    digest. The repository delegates hashing to the WebCrypto platform
    primitive (`crypto.subtle`), which is not part of the repository; the
    spec names it as the leaf dependency, a standard hash, so it is modelled
    here by RFC 3174 SHA-1. -/
def sha1 (msg : List Nat) : List Nat :=
  match (chunks64 (sha1Pad msg)).foldl sha1Block
      (1732584193, 4023233417, 2562383102, 271733878, 3285377520) with
  | (a, b, c, d, e) =>
    wordBytes a ++ wordBytes b ++ wordBytes c ++ wordBytes d ++ wordBytes e

/-- Modelled from the spec: HMAC-SHA-1 (RFC 2104) of a message under a key —
    the "standard HMAC primitive" leaf dependency which the repository takes
    from the WebCrypto platform. -/
def hmacSha1 (key msg : List Nat) : List Nat :=
  let k0 := if 64 < key.length then sha1 key else key
  let kp := k0 ++ List.replicate (64 - k0.length) 0
  sha1 ((kp.map (fun b => b ^^^ 92)) ++ sha1 ((kp.map (fun b => b ^^^ 54)) ++ msg))

/-- `calculateHmacDigest` from `src/util.ts`, at algorithm SHA-1 (the
    algorithm exercised by every claim): encode the moving factor on eight
    bytes (this can throw) and compute the keyed hash of those bytes under
    the secret. -/
def calculateHmacDigest (movingFactor : Nat) (secret : List Nat) :
    Except String (List Nat) :=
  match numberToBytes movingFactor 8 with
  | .error e => .error e
  | .ok bytesToSign => .ok (hmacSha1 secret bytesToSign)

/-- The decimal digit characters of a value, most significant first, with
    explicit fuel (`decChars` passes the value itself, which always
    suffices); this is JavaScript `code.toString()` for a non-negative
    integer, so `0` yields `"0"`. -/
def decCharsAux : Nat → Nat → List Char
  | 0, v => [Nat.digitChar v]
  | fuel + 1, v =>
    if v < 10 then [Nat.digitChar v]
    else decCharsAux fuel (v / 10) ++ [Nat.digitChar (v % 10)]

/-- The decimal digit characters of a value, most significant first. -/
def decChars (v : Nat) : List Char := decCharsAux v v

/-- The zero-filled digit array of `Otp.formatCode` in `src/otp.ts`: the
    decimal digits of the code, left-padded with the zero character up to
    `minimumDigits` characters. -/
def zeroFill (code : Nat) (minimumDigits : Nat) : List Char :=
  List.replicate (minimumDigits - (decChars code).length) zeroChar ++ decChars code

/-- The grouping pass of `Otp.formatCode`: walk the digit array with its
    index and append a space to every character closing a group, except at
    the last index (`(i + 1) % 0` on a zero grouping is `NaN` in JavaScript,
    never equal to zero, and likewise never zero here). -/
def groupJoinAux (grouping total : Nat) : Nat → List Char → List Char
  | _, [] => []
  | i, c :: rest =>
    (if i ≠ total - 1 ∧ (i + 1) % grouping = 0 then [c, spaceChar] else [c]) ++
      groupJoinAux grouping total (i + 1) rest

/-- `Otp.formatCode` from `src/otp.ts`: zero-fill to `minimumDigits`, then
    group by three when the digit count is divisible by three and by four
    otherwise, separating groups with spaces. -/
def formatCode (code : Nat) (minimumDigits : Nat) : List Char :=
  let zeroFilledArray := zeroFill code minimumDigits
  let grouping := if zeroFilledArray.length % 3 = 0 then 3 else 4
  groupJoinAux grouping zeroFilledArray.length 0 zeroFilledArray

/-- The raw (numeric) code of `Otp.generateCodeNoSideEffects` in
    `src/otp.ts` before formatting: HMAC digest of the moving factor, then
    dynamic truncation. -/
def otpCode (secret : List Nat) (digits : Nat) (movingFactor : Nat) :
    Except String Nat :=
  match calculateHmacDigest movingFactor secret with
  | .error e => .error e
  | .ok digest => extractCodeFromHmacShaDigest digest digits

/-- `Otp.generateCodeNoSideEffects`. The formatted branch is
    `Otp.formatCode` from `src/otp.ts`. Modelled from the spec: the
    options-based revision of `otp.ts` carrying the `formatCode` toggle
    (called by `src/totp.ts` and `src/hotp.ts`) is not among the sources;
    per the spec a code is "either a raw integer … or a display-formatted
    string (grouped digits, zero-padded to digits length)", so the
    unformatted branch returns the zero-padded digit string. -/
def generateCodeNoSideEffects (secret : List Nat) (digits : Nat)
    (movingFactor : Nat) (doFormat : Bool) : Except String (List Char) :=
  match otpCode secret digits movingFactor with
  | .error e => .error e
  | .ok code => .ok (if doFormat then formatCode code digits else zeroFill code digits)

/-- `Otp.validateCodeNoSideEffects` from `src/otp.ts`: compare the cleaned
    submitted code with the cleaned generated (formatted) code. -/
def validateCodeNoSideEffects (secret : List Nat) (digits : Nat)
    (code : List Char) (movingFactor : Nat) : Except String Bool :=
  match generateCodeNoSideEffects secret digits movingFactor true with
  | .error e => .error e
  | .ok generated => .ok (decide (cleanUserInputFormat code = cleanUserInputFormat generated))

/-- `generateCodeNoSideEffects` on the `Int`-typed moving factors of the
    TOTP engine. A negative moving factor makes the `do … while` loop of
    `numberToBytes` run forever (its state stays negative; see the
    `n2bIter` theorems below), so there the actual code diverges; the model
    returns a distinguished error in place of that divergence, a branch no
    theorem of this file relies on for positive results. -/
def generateCodeNoSideEffectsInt (secret : List Nat) (digits : Nat)
    (movingFactor : Int) (doFormat : Bool) : Except String (List Char) :=
  if movingFactor < 0 then .error ("numberToBytes diverges on a negative moving factor")
  else generateCodeNoSideEffects secret digits movingFactor.toNat doFormat

/-- Dynamic truncation in the words of the spec (RFC 4226): the offset is
    the low four bits of the last byte; the four bytes starting at the
    offset, read as a big-endian unsigned 32-bit integer, have their sign
    bit cleared and are reduced modulo `10 ^ digits`. -/
def dynamicTruncate (digest : List Nat) (digits : Nat) : Nat :=
  let offset := digest.getLastD 0 &&& 15
  ((digest.getD offset 0 * 2 ^ 24 + digest.getD (offset + 1) 0 * 2 ^ 16 +
      digest.getD (offset + 2) 0 * 2 ^ 8 + digest.getD (offset + 3) 0) &&&
    2147483647) % 10 ^ digits

/-- The code value at a moving factor, as a total function (the spec's
    derivation: HMAC over the 8-byte big-endian moving factor, then dynamic
    truncation); it agrees with the `otpCode` code path whenever the moving
    factor fits in eight bytes. -/
def otpCodeValue (secret : List Nat) (digits : Nat) (movingFactor : Nat) : Nat :=
  dynamicTruncate (hmacSha1 secret (beFixed 8 movingFactor)) digits

/-- The canonical (whitespace-free, zero-padded) code string at a moving
    factor. -/
def canonicalCodeAt (secret : List Nat) (digits : Nat) (movingFactor : Nat) : List Char :=
  zeroFill (otpCodeValue secret digits movingFactor) digits

/-- The HOTP engine state of `src/hotp.ts`: fixed configuration plus the
    mutable counter. -/
structure Hotp where
  secret : List Nat
  digits : Nat
  validationWindow : Nat
  counter : Nat
deriving DecidableEq

/-- `Hotp.generate` from `src/hotp.ts` (default formatting): derive the
    code at the explicit moving factor when one is given, else at the
    internal counter; afterwards increment the counter whenever
    `options.sideEffects` is absent or true. -/
def hotpGenerate (h : Hotp) (movingFactor : Option Nat) (sideEffects : Option Bool) :
    Except String (List Char × Hotp) :=
  match generateCodeNoSideEffects h.secret h.digits (movingFactor.getD h.counter) true with
  | .error e => .error e
  | .ok generatedCode =>
    .ok (generatedCode,
      if sideEffects.getD true then { h with counter := h.counter + 1 } else h)

/-- The look-ahead loop of `Hotp.validate`: probe `base + i` for each index
    in the list in order; once a probe matches, later iterations no longer
    evaluate anything (the loop keeps `codeIsValid` as is), so the loop is
    the first-match scan. -/
def hotpScan (secret : List Nat) (digits : Nat) (code : List Char) (base : Nat) :
    List Nat → Except String Bool
  | [] => .ok false
  | i :: rest =>
    match validateCodeNoSideEffects secret digits code (base + i) with
    | .error e => .error e
    | .ok true => .ok true
    | .ok false => hotpScan secret digits code base rest

/-- `Hotp.validate` from `src/hotp.ts`: scan `base + 0 … base + window`
    (window zero when `options.validateAgainstWindow` is false); on success
    with `options.sideEffects` absent or true, increment the counter. -/
def hotpValidate (h : Hotp) (code : List Char) (movingFactor : Option Nat)
    (sideEffects validateAgainstWindow : Option Bool) :
    Except String (Bool × Hotp) :=
  let usedMovingFactor := movingFactor.getD h.counter
  let upperBound := if validateAgainstWindow.getD true then h.validationWindow else 0
  match hotpScan h.secret h.digits code usedMovingFactor (List.range (upperBound + 1)) with
  | .error e => .error e
  | .ok codeIsValid =>
    .ok (codeIsValid,
      if sideEffects.getD true && codeIsValid then { h with counter := h.counter + 1 } else h)

/-- The TOTP engine state of `src/totp.ts`: fixed configuration plus the
    replay marker. -/
structure Totp where
  secret : List Nat
  digits : Nat
  validationWindow : Nat
  stepSize : Nat
  lastValidatedCode : Option (List Char)
deriving DecidableEq

/-- `calculateMovingFactor` from `src/totp.ts`: the time step is the
    floored quotient of the timestamp (in seconds) by the step size.
    JavaScript computes `Math.floor(seconds / stepSize)` over the reals,
    which on integer inputs and a positive step size is flooring division.
    The wall-clock default (`Date.now() / 1000`) is represented by passing
    the current time explicitly. -/
def calculateMovingFactor (stepSize : Nat) (seconds : Int) : Int :=
  Int.fdiv seconds stepSize

/-- The replay ("one time use") test of `Totp.validate`:
    `lastValidatedCode && lastValidatedCode === cleanUserInputFormat(code)` —
    an unset or empty marker is falsy and never counts as replay. -/
def isReplay : Option (List Char) → List Char → Bool
  | none, _ => false
  | some marker, cleaned => !marker.isEmpty && decide (marker = cleaned)

/-- The symmetric-window loop of `Totp.validate`: probe `base + attempt`
    for each attempt in order, skipping probes whose moving factor would be
    negative, stopping at the first match. -/
def totpScan (secret : List Nat) (digits : Nat) (code : List Char) (base : Int) :
    List Int → Except String Bool
  | [] => .ok false
  | attempt :: rest =>
    if base + attempt < 0 then totpScan secret digits code base rest
    else
      match validateCodeNoSideEffects secret digits code (base + attempt).toNat with
      | .error e => .error e
      | .ok true => .ok true
      | .ok false => totpScan secret digits code base rest

/-- The attempts probed by `Totp.validate`: `-window, …, window` in
    ascending order. -/
def attemptList (window : Nat) : List Int :=
  (List.range (2 * window + 1)).map (fun i : Nat => (i : Int) - (window : Int))

/-- `Totp.validate` from `src/totp.ts`: compute the base step, scan the
    window (the window collapses to the base step alone unless
    `options.validateAgainstWindow` is present and truthy), then enforce one
    time use: a match equal to the (truthy) replay marker is rejected
    outright; otherwise, when `options.sideEffects` is absent or true, the
    marker is set to the unformatted code generated at the base step. -/
def totpValidate (t : Totp) (code : List Char) (seconds : Int)
    (sideEffects validateAgainstWindow : Option Bool) :
    Except String (Bool × Totp) :=
  let calculatedMovingFactor := calculateMovingFactor t.stepSize seconds
  let window := if validateAgainstWindow.getD false then t.validationWindow else 0
  match totpScan t.secret t.digits code calculatedMovingFactor (attemptList window) with
  | .error e => .error e
  | .ok codeIsValid =>
    if codeIsValid then
      if isReplay t.lastValidatedCode (cleanUserInputFormat code) then .ok (false, t)
      else
        if sideEffects.getD true then
          match generateCodeNoSideEffectsInt t.secret t.digits calculatedMovingFactor false with
          | .error e => .error e
          | .ok generated => .ok (true, { t with lastValidatedCode := some generated })
        else .ok (true, t)
    else .ok (false, t)

/-- `Totp.generate` from `src/totp.ts` (default formatting): the code at
    the current time step; no side effects. -/
def totpGenerate (t : Totp) (seconds : Int) : Except String (List Char) :=
  generateCodeNoSideEffectsInt t.secret t.digits
    (calculateMovingFactor t.stepSize seconds) true

/-- The RFC 4226 / RFC 6238 test secret: the ASCII bytes of
    `"12345678901234567890"`. -/
def rfcSecret : List Nat := ("12345678901234567890").toList.map Char.toNat

/-- The TOTP engine of the repository's RFC tests: the RFC secret, eight
    digits, the default validation window of one step, the default step
    size of thirty seconds, and no replay marker. -/
def rfcTotp8 : Totp :=
  { secret := rfcSecret, digits := 8, validationWindow := 1, stepSize := 30,
    lastValidatedCode := none }

/-- The HOTP engine of the repository's RFC tests: the RFC secret, six
    digits, and the default configuration (validation window 100, counter
    0). -/
def rfcHotp : Hotp :=
  { secret := rfcSecret, digits := 6, validationWindow := 100, counter := 0 }

/-- A small-window HOTP engine over the RFC secret: six digits, validation
    window three, counter zero. -/
def rfcHotpW3 : Hotp :=
  { secret := rfcSecret, digits := 6, validationWindow := 3, counter := 0 }

/-- A one-digit HOTP engine over the RFC secret: one digit, validation
    window one, counter zero — one-digit codes collide. -/
def rfcHotpD1 : Hotp :=
  { secret := rfcSecret, digits := 1, validationWindow := 1, counter := 0 }

/-- The TOTP test engine with the replay marker preset to the canonical
    code of step 37037036 (the base step at time 1111111109). -/
def rfcTotp8Marked07 : Totp :=
  { rfcTotp8 with lastValidatedCode := some (("07081804").toList) }

/-- The TOTP test engine with the replay marker preset to the canonical
    code of step 37037037. -/
def rfcTotp8Marked14 : Totp :=
  { rfcTotp8 with lastValidatedCode := some (("14050471").toList) }

/-- A character unchanged by `cleanUserInputFormat`: not a space and fixed
    by uppercasing. Digit characters are such. -/
def cleanFixedChar (c : Char) : Prop := c ≠ spaceChar ∧ Char.toUpper c = c

/-- The length of the fixed-width big-endian representation is its width. -/
theorem beFixed_length (n v : Nat) : (beFixed n v).length = n := by
  induction n generalizing v with
  | zero => rfl
  | succ n ih => simp [beFixed, ih]

/-- The fixed-width big-endian representation of zero is all zero bytes. -/
theorem beFixed_zero (n : Nat) : beFixed n 0 = List.replicate n 0 := by
  induction n with
  | zero => rfl
  | succ n ih => simp [beFixed, ih, List.replicate_succ']

/-- Left-padding the loop-built digit list with zeros up to `n` bytes gives
    the fixed-width big-endian representation, for a value below `256 ^ n`
    (fuel at least the value). -/
theorem beDigitsAux_pad (fuel : Nat) : ∀ v n, v ≤ fuel → 1 ≤ n → v < 256 ^ n →
    List.replicate (n - (beDigitsAux fuel v).length) 0 ++ beDigitsAux fuel v =
      beFixed n v := by
  induction fuel with
  | zero =>
    intro v n hv hn _
    interval_cases v
    obtain ⟨m, rfl⟩ : ∃ m, n = m + 1 := ⟨n - 1, by omega⟩
    simp only [beDigitsAux, Nat.zero_mod, beFixed, Nat.zero_div, beFixed_zero]
    simp
  | succ fuel ih =>
    intro v n hv hn hlt
    by_cases h256 : v < 256
    · simp only [beDigitsAux, if_pos h256, List.length_singleton]
      obtain ⟨m, rfl⟩ : ∃ m, n = m + 1 := ⟨n - 1, by omega⟩
      rw [beFixed, Nat.div_eq_of_lt h256, Nat.mod_eq_of_lt h256, beFixed_zero]
      simp
    · simp only [beDigitsAux, if_neg h256]
      obtain ⟨m, rfl⟩ : ∃ m, n = m + 1 := ⟨n - 1, by omega⟩
      have hm1 : 1 ≤ m := by
        rcases Nat.lt_or_ge m 1 with hm | hm
        · interval_cases m
          · omega
        · exact hm
      have hvf : v / 256 ≤ fuel := by omega
      have hvlt : v / 256 < 256 ^ m := by
        rw [Nat.div_lt_iff_lt_mul (by norm_num)]
        calc v < 256 ^ (m + 1) := hlt
        _ = 256 ^ m * 256 := by ring
      have := ih (v / 256) m hvf hm1 hvlt
      rw [beFixed, ← this, List.length_append, List.length_singleton]
      rw [show m + 1 - ((beDigitsAux fuel (v / 256)).length + 1) =
            m - (beDigitsAux fuel (v / 256)).length by omega]
      simp [List.append_assoc]

/-- The loop-built digit list of a value below `256 ^ n` has at most `n`
    digits. -/
theorem beDigitsAux_length_le (fuel : Nat) : ∀ v n, v ≤ fuel → 1 ≤ n →
    v < 256 ^ n → (beDigitsAux fuel v).length ≤ n := by
  intro v n hv hn hlt
  have h := congrArg List.length (beDigitsAux_pad fuel v n hv hn hlt)
  rw [List.length_append, List.length_replicate, beFixed_length] at h
  omega

/-- The loop-built digit list of a value at least `256 ^ n` has more than
    `n` digits. -/
theorem beDigitsAux_length_gt (fuel : Nat) : ∀ v n, v ≤ fuel → 256 ^ n ≤ v →
    n < (beDigitsAux fuel v).length := by
  induction fuel with
  | zero =>
    intro v n hv hge
    have : 0 < 256 ^ n := Nat.pos_pow_of_pos n (by norm_num)
    omega
  | succ fuel ih =>
    intro v n hv hge
    by_cases h256 : v < 256
    · have : n = 0 := by
        by_contra hne
        have : 256 ^ 1 ≤ 256 ^ n := Nat.pow_le_pow_right (by norm_num) (by omega)
        simp [pow_one] at this
        omega
      subst this
      simp [beDigitsAux, if_pos h256]
    · simp only [beDigitsAux, if_neg h256, List.length_append, List.length_singleton]
      cases n with
      | zero => omega
      | succ m =>
        have hvf : v / 256 ≤ fuel := by
          have : v / 256 < v := Nat.div_lt_self (by omega) (by norm_num)
          omega
        have hge' : 256 ^ m ≤ v / 256 := by
          rw [Nat.le_div_iff_mul_le (by norm_num)]
          calc 256 ^ m * 256 = 256 ^ (m + 1) := by ring
          _ ≤ v := hge
        have := ih (v / 256) m hvf hge'
        omega

/-- For a value that fits in eight bytes, `numberToBytes` succeeds with
    exactly the 8-byte big-endian representation. -/
theorem numberToBytes_ok (v : Nat) (hv : v < 2 ^ 64) :
    numberToBytes v 8 = .ok (beFixed 8 v) := by
  have h64 : v < 256 ^ 8 := by norm_num at hv ⊢; omega
  have hle := beDigitsAux_length_le v v 8 le_rfl (by norm_num) h64
  rw [numberToBytes, beDigits]
  simp only [if_neg (by omega : ¬ 8 < (beDigitsAux v v).length)]
  rw [beDigitsAux_pad v v 8 le_rfl (by norm_num) h64]

/-- For a value too large for eight bytes, `numberToBytes` throws. -/
theorem numberToBytes_err (v : Nat) (hv : 2 ^ 64 ≤ v) :
    (numberToBytes v 8).isOk = false := by
  have h64 : 256 ^ 8 ≤ v := by norm_num at hv ⊢; omega
  have hgt := beDigitsAux_length_gt v v 8 le_rfl h64
  rw [numberToBytes, beDigits]
  simp only [if_pos (by omega : 8 < (beDigitsAux v v).length)]
  rfl

/-- Each pass of the `numberToBytes` loop on a negative value yields a
    negative value: the loop can never reach zero. -/
theorem n2bStep_neg (v : Int) (hv : v < 0) : n2bStep v < 0 := by
  have h1 := Int.ediv_add_emod v 256
  have h2 : 0 ≤ v % 256 := Int.emod_nonneg v (by norm_num)
  have h3 : v % 256 < 256 := Int.emod_lt_of_pos v (by norm_num)
  have h4 : v - v % 256 = 256 * (v / 256) := by omega
  rw [n2bStep, h4, Int.mul_ediv_cancel_left _ (by norm_num)]
  omega

/-- Each pass of the `numberToBytes` loop on a non-negative value divides
    it by 256 (rounding down). -/
theorem n2bStep_nonneg (v : Int) (hv : 0 ≤ v) : n2bStep v = v / 256 ∧ 0 ≤ n2bStep v := by
  have h1 := Int.ediv_add_emod v 256
  have h2 : 0 ≤ v % 256 := Int.emod_nonneg v (by norm_num)
  have h3 : v % 256 < 256 := Int.emod_lt_of_pos v (by norm_num)
  have h4 : v - v % 256 = 256 * (v / 256) := by omega
  rw [n2bStep, h4, Int.mul_ediv_cancel_left _ (by norm_num)]
  constructor
  · rfl
  · positivity

/-- A SHA-1 digest has twenty bytes. -/
theorem sha1_length (msg : List Nat) : (sha1 msg).length = 20 := by
  rw [sha1]
  rcases h : (chunks64 (sha1Pad msg)).foldl sha1Block
      (1732584193, 4023233417, 2562383102, 271733878, 3285377520) with ⟨a, b, c, d, e⟩
  simp [wordBytes]

/-- An HMAC-SHA-1 digest has twenty bytes. -/
theorem hmacSha1_length (key msg : List Nat) : (hmacSha1 key msg).length = 20 := by
  rw [hmacSha1]
  exact sha1_length _

/-- A list shorter than four bytes makes the `DataView` read throw. -/
theorem bytesToUInt32BE_short (l : List Nat) (h : l.length < 4) :
    ∃ e, bytesToUInt32BE l = .error e := by
  match l, h with
  | [], _ => exact ⟨_, rfl⟩
  | [a], _ => exact ⟨_, rfl⟩
  | [a, b], _ => exact ⟨_, rfl⟩
  | [a, b, c], _ => exact ⟨_, rfl⟩

/-- Four consecutive elements read off a sufficiently long list by
    drop-and-take, as positional lookups. -/
theorem drop_take_four : ∀ (off : Nat) (l : List Nat), off + 4 ≤ l.length →
    (l.drop off).take 4 =
      [l.getD off 0, l.getD (off + 1) 0, l.getD (off + 2) 0, l.getD (off + 3) 0] := by
  intro off
  induction off with
  | zero =>
    intro l hl
    match l, hl with
    | b0 :: b1 :: b2 :: b3 :: rest, _ => rfl
  | succ o ih =>
    intro l hl
    match l, hl with
    | c :: l', hl =>
      have hlen : o + 4 ≤ l'.length := by simp at hl; omega
      simp only [List.drop_succ_cons, List.getD_cons_succ]
      exact ih l' hlen

/-- On a digest long enough for the dynamic offset, the extractor succeeds
    and returns exactly the spec's dynamic-truncation value. -/
theorem extract_ok (d : List Nat) (digits : Nat)
    (h : (d.getLastD 0 &&& 15) + 4 ≤ d.length) :
    extractCodeFromHmacShaDigest d digits = .ok (dynamicTruncate d digits) := by
  have hne : d ≠ [] := by
    intro h0
    subst h0
    simp at h
  cases hl : d.getLast? with
  | none =>
    rw [List.getLast?_eq_none_iff] at hl
    exact absurd hl hne
  | some lastByte =>
    have hlast : d.getLastD 0 = lastByte := by
      rw [List.getLastD_eq_getLast?, hl]
      rfl
    rw [hlast] at h
    simp only [extractCodeFromHmacShaDigest, hl, drop_take_four _ d h,
      bytesToUInt32BE, dynamicTruncate, hlast]

/-- The extractor returns a value below `10 ^ digits`. -/
theorem dynamicTruncate_lt (d : List Nat) (digits : Nat) :
    dynamicTruncate d digits < 10 ^ digits :=
  Nat.mod_lt _ (Nat.pos_pow_of_pos digits (by norm_num))

/-- The extractor succeeds exactly on a non-empty digest at least
    `offset + 4` bytes long. -/
theorem extract_isOk_iff (d : List Nat) (digits : Nat) :
    (extractCodeFromHmacShaDigest d digits).isOk = true ↔
      d ≠ [] ∧ (d.getLastD 0 &&& 15) + 4 ≤ d.length := by
  cases hl : d.getLast? with
  | none =>
    rw [List.getLast?_eq_none_iff] at hl
    subst hl
    simp only [extractCodeFromHmacShaDigest]
    simp [Except.isOk, Except.toBool]
  | some lastByte =>
    have hne : d ≠ [] := by
      intro h0
      subst h0
      simp at hl
    have hlast : d.getLastD 0 = lastByte := by
      rw [List.getLastD_eq_getLast?, hl]
      rfl
    by_cases h : (d.getLastD 0 &&& 15) + 4 ≤ d.length
    · rw [extract_ok d digits h]
      exact iff_of_true rfl ⟨hne, h⟩
    · have hshort : ((d.drop (lastByte &&& 15)).take 4).length < 4 := by
        rw [List.length_take, List.length_drop]
        rw [hlast] at h
        omega
      obtain ⟨e, he⟩ := bytesToUInt32BE_short _ hshort
      simp only [extractCodeFromHmacShaDigest, hl, he]
      exact iff_of_false (by simp [Except.isOk, Except.toBool]) (fun hc => h hc.2)

/-- Decimal digit characters are untouched by cleaning. -/
theorem digitChar_cleanFixed (d : Nat) (hd : d < 10) : cleanFixedChar (Nat.digitChar d) := by
  interval_cases d <;> exact ⟨by decide, by decide⟩

/-- The builder of the decimal digit list never returns an empty list. -/
theorem decCharsAux_ne_nil (fuel v : Nat) : decCharsAux fuel v ≠ [] := by
  cases fuel with
  | zero => simp [decCharsAux]
  | succ fuel =>
    by_cases h : v < 10 <;> simp [decCharsAux, h]

/-- Every character of the decimal digit list (fuel at least the value) is
    untouched by cleaning. -/
theorem decCharsAux_cleanFixed (fuel : Nat) : ∀ v, v ≤ fuel →
    ∀ c ∈ decCharsAux fuel v, cleanFixedChar c := by
  induction fuel with
  | zero =>
    intro v hv c hc
    interval_cases v
    simp [decCharsAux] at hc
    subst hc
    exact digitChar_cleanFixed 0 (by norm_num)
  | succ fuel ih =>
    intro v hv c hc
    by_cases h : v < 10
    · simp [decCharsAux, h] at hc
      subst hc
      exact digitChar_cleanFixed v h
    · simp only [decCharsAux, if_neg h, List.mem_append, List.mem_singleton] at hc
      rcases hc with hc | hc
      · have hvf : v / 10 ≤ fuel := by
          have : v / 10 < v := Nat.div_lt_self (by omega) (by norm_num)
          omega
        exact ih (v / 10) hvf c hc
      · subst hc
        exact digitChar_cleanFixed (v % 10) (Nat.mod_lt v (by norm_num))

/-- Every character of the zero-filled digit string is untouched by
    cleaning. -/
theorem zeroFill_cleanFixed (v d : Nat) : ∀ c ∈ zeroFill v d, cleanFixedChar c := by
  intro c hc
  rw [zeroFill, List.mem_append] at hc
  rcases hc with hc | hc
  · rw [List.eq_of_mem_replicate hc]
    exact ⟨by decide, by decide⟩
  · exact decCharsAux_cleanFixed v v le_rfl c hc

/-- The zero-filled digit string is never empty. -/
theorem zeroFill_ne_nil (v d : Nat) : zeroFill v d ≠ [] := by
  rw [zeroFill]
  intro h0
  rw [List.append_eq_nil] at h0
  exact decCharsAux_ne_nil v v h0.2

/-- Cleaning fixes a string whose characters are all untouched by
    cleaning. -/
theorem clean_of_cleanFixed (l : List Char) (h : ∀ c ∈ l, cleanFixedChar c) :
    cleanUserInputFormat l = l := by
  induction l with
  | nil => rfl
  | cons c rest ih =>
    have hc := h c (by simp)
    have hrest := ih (fun x hx => h x (by simp [hx]))
    rw [cleanUserInputFormat] at hrest ⊢
    simp only [List.filter_cons, decide_eq_true_eq]
    rw [if_pos hc.1]
    simp only [List.map_cons, hrest, hc.2]

/-- The grouping pass inserts only spaces: filtering spaces out of its
    output recovers the space-filtered input. -/
theorem groupJoinAux_filter (g t : Nat) : ∀ (l : List Char) (i : Nat),
    (groupJoinAux g t i l).filter (fun c => decide (c ≠ spaceChar)) =
      l.filter (fun c => decide (c ≠ spaceChar)) := by
  intro l
  induction l with
  | nil => intro i; rfl
  | cons c rest ih =>
    intro i
    rw [groupJoinAux, List.filter_append, ih (i + 1)]
    by_cases h : i ≠ t - 1 ∧ (i + 1) % g = 0
    · rw [if_pos h]
      by_cases hc : c = spaceChar <;> simp [List.filter_cons, hc]
    · rw [if_neg h]
      by_cases hc : c = spaceChar <;> simp [List.filter_cons, hc]

/-- Cleaning a formatted code recovers the zero-filled digit string. -/
theorem clean_formatCode (v d : Nat) :
    cleanUserInputFormat (formatCode v d) = zeroFill v d := by
  rw [formatCode, cleanUserInputFormat, groupJoinAux_filter]
  have h1 : (zeroFill v d).filter (fun c => decide (c ≠ spaceChar)) = zeroFill v d := by
    rw [List.filter_eq_self]
    intro c hc
    simpa using (zeroFill_cleanFixed v d c hc).1
  rw [h1]
  have h2 : ∀ l : List Char, (∀ c ∈ l, Char.toUpper c = c) → l.map Char.toUpper = l := by
    intro l hl
    induction l with
    | nil => rfl
    | cons c rest ih =>
      simp only [List.map_cons, hl c (by simp), ih (fun x hx => hl x (by simp [hx]))]
  exact h2 _ (fun c hc => (zeroFill_cleanFixed v d c hc).2)

/-- Cleaning the formatted code at a moving factor gives the canonical
    code string there. -/
theorem clean_formatCode_canonical (s : List Nat) (d mf : Nat) :
    cleanUserInputFormat (formatCode (otpCodeValue s d mf) d) = canonicalCodeAt s d mf :=
  clean_formatCode _ _

/-- The digest step succeeds on a moving factor that fits in eight bytes. -/
theorem calculateHmacDigest_ok (mf : Nat) (secret : List Nat) (hv : mf < 2 ^ 64) :
    calculateHmacDigest mf secret = .ok (hmacSha1 secret (beFixed 8 mf)) := by
  rw [calculateHmacDigest, numberToBytes_ok mf hv]

/-- The raw code path agrees with the spec's total code value whenever the
    moving factor fits in eight bytes. -/
theorem otpCode_ok (secret : List Nat) (digits mf : Nat) (hv : mf < 2 ^ 64) :
    otpCode secret digits mf = .ok (otpCodeValue secret digits mf) := by
  rw [otpCode, calculateHmacDigest_ok mf secret hv]
  apply extract_ok
  have hlen : (hmacSha1 secret (beFixed 8 mf)).length = 20 := hmacSha1_length _ _
  have hoff : (hmacSha1 secret (beFixed 8 mf)).getLastD 0 &&& 15 ≤ 15 := Nat.and_le_right
  omega

/-- Formatted generation at a small moving factor returns the formatted
    code value. -/
theorem generate_ok_formatted (secret : List Nat) (digits mf : Nat) (hv : mf < 2 ^ 64) :
    generateCodeNoSideEffects secret digits mf true =
      .ok (formatCode (otpCodeValue secret digits mf) digits) := by
  rw [generateCodeNoSideEffects, otpCode_ok secret digits mf hv]
  rfl

/-- Unformatted generation at a small moving factor returns the canonical
    code string. -/
theorem generate_ok_raw (secret : List Nat) (digits mf : Nat) (hv : mf < 2 ^ 64) :
    generateCodeNoSideEffects secret digits mf false =
      .ok (canonicalCodeAt secret digits mf) := by
  rw [generateCodeNoSideEffects, otpCode_ok secret digits mf hv]
  rfl

/-- Code validation at a small moving factor is the comparison of the
    cleaned submission with the canonical code string. -/
theorem validateCode_eq (secret : List Nat) (digits mf : Nat) (code : List Char)
    (hv : mf < 2 ^ 64) :
    validateCodeNoSideEffects secret digits code mf =
      .ok (decide (cleanUserInputFormat code = canonicalCodeAt secret digits mf)) := by
  rw [validateCodeNoSideEffects, generate_ok_formatted secret digits mf hv]
  show Except.ok (decide (cleanUserInputFormat code =
      cleanUserInputFormat (formatCode (otpCodeValue secret digits mf) digits))) = _
  rw [clean_formatCode]
  rfl

/-- The canonical code string is never empty. -/
theorem canonicalCodeAt_ne_nil (secret : List Nat) (digits mf : Nat) :
    canonicalCodeAt secret digits mf ≠ [] := zeroFill_ne_nil _ _

/-- The HOTP look-ahead loop, under in-range probes, succeeds and answers
    whether some probed factor matches. -/
theorem hotpScan_eq (secret : List Nat) (digits : Nat) (code : List Char) (base : Nat) :
    ∀ l : List Nat, (∀ i ∈ l, base + i < 2 ^ 64) →
    hotpScan secret digits code base l =
      .ok (l.any (fun i =>
        decide (cleanUserInputFormat code = canonicalCodeAt secret digits (base + i)))) := by
  intro l
  induction l with
  | nil => intro _; rfl
  | cons i rest ih =>
    intro hb
    rw [hotpScan, validateCode_eq secret digits (base + i) code (hb i (by simp))]
    cases hd : decide (cleanUserInputFormat code = canonicalCodeAt secret digits (base + i)) with
    | true => simp [List.any_cons, hd]
    | false =>
      rw [ih (fun j hj => hb j (by simp [hj]))]
      simp [List.any_cons, hd]

/-- The TOTP window loop, under in-range probes, succeeds and answers
    whether some probed non-negative step matches. -/
theorem totpScan_eq (secret : List Nat) (digits : Nat) (code : List Char) (base : Int) :
    ∀ l : List Int, (∀ a ∈ l, (base + a).toNat < 2 ^ 64) →
    totpScan secret digits code base l =
      .ok (l.any (fun a =>
        decide (0 ≤ base + a) &&
          decide (cleanUserInputFormat code =
            canonicalCodeAt secret digits (base + a).toNat))) := by
  intro l
  induction l with
  | nil => intro _; rfl
  | cons a rest ih =>
    intro hb
    rw [totpScan]
    by_cases hneg : base + a < 0
    · rw [if_pos hneg, ih (fun j hj => hb j (by simp [hj]))]
      have : decide (0 ≤ base + a) = false := by simp; omega
      simp [List.any_cons, this]
    · rw [if_neg hneg, validateCode_eq secret digits (base + a).toNat code (hb a (by simp))]
      have h0 : decide (0 ≤ base + a) = true := by simp; omega
      cases hd : decide (cleanUserInputFormat code =
          canonicalCodeAt secret digits (base + a).toNat) with
      | true => simp [List.any_cons, hd, h0]
      | false =>
        rw [ih (fun j hj => hb j (by simp [hj]))]
        simp [List.any_cons, hd, h0]

/-- Membership in the TOTP attempt list is exactly the symmetric window. -/
theorem mem_attemptList (w : Nat) (a : Int) :
    a ∈ attemptList w ↔ -(w : Int) ≤ a ∧ a ≤ (w : Int) := by
  constructor
  · intro ha
    rw [attemptList] at ha
    obtain ⟨i, hi, he⟩ := List.mem_map.mp ha
    rw [List.mem_range] at hi
    omega
  · intro h
    rw [attemptList]
    refine List.mem_map.mpr ⟨(a + (w : Int)).toNat, ?_, ?_⟩
    · rw [List.mem_range]
      omega
    · omega

/-- On a non-negative value the `numberToBytes` loop reaches zero: some
    number of passes nullifies the value. -/
theorem n2bIter_zero_of_nonneg (v : Int) (hv : 0 ≤ v) :
    ∃ n : Nat, n2bIter (n + 1) v = 0 := by
  obtain ⟨k, rfl⟩ : ∃ k : Nat, v = (k : Int) := ⟨v.toNat, by omega⟩
  clear hv
  induction k using Nat.strong_induction_on with
  | _ k ih =>
    obtain ⟨heq, hnn⟩ := n2bStep_nonneg (k : Int) (by positivity)
    by_cases h : (k : Int) < 256
    · refine ⟨0, ?_⟩
      show n2bStep (k : Int) = 0
      rw [heq]
      omega
    · have hcast : n2bStep (k : Int) = ((k / 256 : Nat) : Int) := by
        rw [heq]
        omega
      obtain ⟨n, hn⟩ := ih (k / 256) (Nat.div_lt_self (by omega) (by norm_num))
      refine ⟨n + 1, ?_⟩
      show n2bIter (n + 1) (n2bStep (k : Int)) = 0
      rw [hcast]
      exact hn

/-- On a negative value every number of passes of the `numberToBytes` loop
    leaves a negative value. -/
theorem n2bIter_neg : ∀ (n : Nat) (v : Int), v < 0 → n2bIter (n + 1) v < 0 := by
  intro n
  induction n with
  | zero => exact fun v hv => n2bStep_neg v hv
  | succ n ih => exact fun v hv => ih (n2bStep v) (n2bStep_neg v hv)

/-- A result is an error exactly when it is not ok. -/
theorem except_error_cases (x : Except String Nat) :
    (∃ e, x = .error e) ↔ x.isOk = false := by
  cases x <;> simp [Except.isOk, Except.toBool]

/-- C5: with the secret equal to the ASCII bytes of
    `"12345678901234567890"`, six digits and SHA-1, code generation at
    moving factors 0 through 9 produces exactly the RFC 4226 codes
    755224, 287082, 359152, 969429, 338314, 254676, 287922, 162583,
    399871, 520489. -/
theorem rfc4226_vector :
    (List.range 10).map (otpCode rfcSecret 6) =
      [.ok 755224, .ok 287082, .ok 359152, .ok 969429, .ok 338314,
        .ok 254676, .ok 287922, .ok 162583, .ok 399871, .ok 520489] := rfl

/-- C6: on every byte digest whose length is at least `offset + 4` with
    `offset` the low nibble of the last byte, and every positive digit
    count, the extractor returns the four bytes at the offset read
    big-endian, sign bit cleared, reduced modulo `10 ^ digits` — a value in
    `[0, 10 ^ digits)`. -/
theorem extractor_dynamic_truncation (digest : List Nat) (digits : Nat)
    (hdigits : 0 < digits) (hbytes : ∀ b ∈ digest, b < 256)
    (hlen : (digest.getLastD 0 &&& 15) + 4 ≤ digest.length) :
    extractCodeFromHmacShaDigest digest digits = .ok (dynamicTruncate digest digits) ∧
      dynamicTruncate digest digits < 10 ^ digits :=
  ⟨extract_ok digest digits hlen, dynamicTruncate_lt digest digits⟩

/-- Witness for C6 at the twenty-byte digest `0, 1, …, 19` (offset 3) and
    six digits. -/
theorem extractor_dynamic_truncation_witness :
    0 < 6 ∧ (∀ b ∈ List.range 20, b < 256) ∧
      ((List.range 20).getLastD 0 &&& 15) + 4 ≤ (List.range 20).length ∧
      (extractCodeFromHmacShaDigest (List.range 20) 6 =
          .ok (dynamicTruncate (List.range 20) 6) ∧
        dynamicTruncate (List.range 20) 6 < 10 ^ 6) :=
  ⟨by norm_num, by decide, by decide,
    extractor_dynamic_truncation (List.range 20) 6 (by norm_num) (by decide) (by decide)⟩

/-- C7: the extractor throws exactly on an empty digest or one shorter
    than `offset + 4` bytes; on every digest of sufficient length it
    returns normally. -/
theorem extractor_fails_iff (digest : List Nat) (digits : Nat) :
    (∃ e, extractCodeFromHmacShaDigest digest digits = .error e) ↔
      (digest = [] ∨ digest.length < (digest.getLastD 0 &&& 15) + 4) := by
  rw [except_error_cases]
  have h := extract_isOk_iff digest digits
  constructor
  · intro hfalse
    by_contra hcon
    push_neg at hcon
    obtain ⟨h1, h2⟩ := hcon
    have := h.mpr ⟨h1, by omega⟩
    rw [this] at hfalse
    cases hfalse
  · intro hor
    cases hok : (extractCodeFromHmacShaDigest digest digits).isOk
    · rfl
    · exfalso
      obtain ⟨h1, h2⟩ := h.mp hok
      rcases hor with h3 | h3
      · exact h1 h3
      · omega

/-- C8: a moving factor that fits in eight bytes is encoded as exactly its
    8-byte big-endian representation; one that does not fit makes the
    encoder, and with it the digest step, throw. -/
theorem digest_moving_factor_encoding (v : Nat) (secret : List Nat) :
    (v < 2 ^ 64 → numberToBytes v 8 = .ok (beFixed 8 v)) ∧
      (2 ^ 64 ≤ v → (numberToBytes v 8).isOk = false ∧
        (calculateHmacDigest v secret).isOk = false) := by
  refine ⟨numberToBytes_ok v, fun hv => ?_⟩
  have h := numberToBytes_err v hv
  refine ⟨h, ?_⟩
  rw [calculateHmacDigest]
  rcases hn : numberToBytes v 8 with e | bs
  · rfl
  · rw [hn] at h
    simp [Except.isOk, Except.toBool] at h

/-- Witness for C8 at the in-range value 600 (whose encoding is
    `00 00 00 00 00 00 02 58`) and the out-of-range value `2 ^ 64`. -/
theorem digest_moving_factor_encoding_witness :
    (600 < 2 ^ 64 ∧ numberToBytes 600 8 = .ok (beFixed 8 600) ∧
        beFixed 8 600 = [0, 0, 0, 0, 0, 0, 2, 88]) ∧
      (2 ^ 64 ≤ 2 ^ 64 ∧ (numberToBytes (2 ^ 64) 8).isOk = false ∧
        (calculateHmacDigest (2 ^ 64) rfcSecret).isOk = false) :=
  ⟨⟨by norm_num, (digest_moving_factor_encoding 600 rfcSecret).1 (by norm_num), by decide⟩,
    le_rfl, (digest_moving_factor_encoding (2 ^ 64) rfcSecret).2 le_rfl⟩

/-- C9: the moving-factor byte-encoding loop terminates (reaches zero) on
    every non-negative integer, and on every negative integer each pass
    leaves a negative value, so the loop never terminates: non-negativity
    is a necessary precondition for the digest computation to be total. -/
theorem numberToBytes_loop_termination :
    (∀ v : Int, 0 ≤ v → ∃ n : Nat, n2bIter (n + 1) v = 0) ∧
      (∀ (n : Nat) (v : Int), v < 0 → n2bIter (n + 1) v < 0) :=
  ⟨n2bIter_zero_of_nonneg, n2bIter_neg⟩

/-- Witness for C9 at the values 5 and -3. -/
theorem numberToBytes_loop_termination_witness :
    (∃ n : Nat, n2bIter (n + 1) 5 = 0) ∧ n2bIter (0 + 1) (-3) < 0 :=
  ⟨numberToBytes_loop_termination.1 5 (by norm_num),
    numberToBytes_loop_termination.2 0 (-3) (by norm_num)⟩

/-- Counterexample to C2: starting from counter 0, `generate()` leaves the
    counter at 1, but a subsequent `generate` with an explicit moving
    factor and the other options at their defaults increments it again to
    2, not 1: the side-effects default, not the presence of an explicit
    factor, drives the increment. -/
theorem hotp_counter_explicit_factor_cex :
    hotpGenerate rfcHotp none none =
        .ok ((("755 224").toList), { rfcHotp with counter := 1 }) ∧
      (hotpGenerate { rfcHotp with counter := 1 } (some 5) none).map
          (fun p => p.2.counter) = .ok 2 ∧
      (2 : Nat) ≠ 1 :=
  ⟨rfl, rfl, by norm_num⟩

/-- C2 (amended): the counter is incremented by exactly 1 on every
    side-effecting generate — also when an explicit moving factor is
    supplied — and on a side-effecting successful validate; it is never
    changed on a failed validation or with side effects disabled. Starting
    at counter 0, `generate()` leaves the counter at 1 and a subsequent
    `generate` with an explicit moving factor at default options leaves it
    at 2. -/
theorem hotp_counter_increment (h : Hotp) (code : List Char) (mf : Option Nat)
    (se vaw : Option Bool) :
    (∀ c h', hotpGenerate h mf se = .ok (c, h') →
        h'.counter = if se.getD true then h.counter + 1 else h.counter) ∧
      (∀ r h', hotpValidate h code mf se vaw = .ok (r, h') →
        h'.counter = if se.getD true && r then h.counter + 1 else h.counter) ∧
      (hotpGenerate rfcHotp none none).map (fun p => p.2.counter) = .ok 1 ∧
      (hotpGenerate { rfcHotp with counter := 1 } (some 5) none).map
        (fun p => p.2.counter) = .ok 2 := by
  refine ⟨?_, ?_, rfl, rfl⟩
  · intro c h' hok
    rcases hg : generateCodeNoSideEffects h.secret h.digits (mf.getD h.counter) true
      with e | g
    · simp only [hotpGenerate, hg] at hok
      cases hok
    · simp only [hotpGenerate, hg] at hok
      cases hok
      by_cases hs : se.getD true = true <;> simp [hs]
  · intro r h' hok
    rcases hsc : hotpScan h.secret h.digits code (mf.getD h.counter)
        (List.range ((if vaw.getD true then h.validationWindow else 0) + 1))
      with e | b
    · simp only [hotpValidate, hsc] at hok
      cases hok
    · simp only [hotpValidate, hsc] at hok
      cases hok
      cases r <;> by_cases hs : se.getD true = true <;> simp [hs]

/-- Witness for C2 at the test engine: a generate with side effects
    disabled returns the RFC code and the frame condition instantiates to
    an unchanged counter. -/
theorem hotp_counter_increment_witness :
    hotpGenerate rfcHotp none (some false) = .ok ((("755 224").toList), rfcHotp) ∧
      rfcHotp.counter =
        if (some false : Option Bool).getD true then rfcHotp.counter + 1
        else rfcHotp.counter :=
  ⟨rfl,
    (hotp_counter_increment rfcHotp [] none (some false) none).1
      (("755 224").toList) rfcHotp rfl⟩

/-- A submitted code whose cleaned form equals the (nonempty-or-empty)
    stored marker makes `Totp.validate` return false with the state
    untouched, whatever the side-effects and window options say. -/
theorem totpValidate_replay (t : Totp) (code : List Char) (seconds : Int)
    (se vaw : Option Bool) (marker : List Char)
    (hm : t.lastValidatedCode = some marker)
    (hmc : marker = cleanUserInputFormat code)
    (hbound : calculateMovingFactor t.stepSize seconds + (t.validationWindow : Int) < 2 ^ 64) :
    totpValidate t code seconds se vaw = .ok (false, t) := by
  have hwle : (if vaw.getD false then t.validationWindow else 0) ≤ t.validationWindow := by
    split <;> omega
  have hscan := totpScan_eq t.secret t.digits code (calculateMovingFactor t.stepSize seconds)
    (attemptList (if vaw.getD false then t.validationWindow else 0))
    (by
      intro a ha
      rw [mem_attemptList] at ha
      omega)
  simp only [totpValidate, hscan]
  cases hB : (attemptList (if vaw.getD false then t.validationWindow else 0)).any
      (fun a => decide (0 ≤ calculateMovingFactor t.stepSize seconds + a) &&
        decide (cleanUserInputFormat code =
          canonicalCodeAt t.secret t.digits
            ((calculateMovingFactor t.stepSize seconds + a).toNat))) with
  | false => simp
  | true =>
    by_cases hnil : marker = []
    · exfalso
      rw [List.any_eq_true] at hB
      obtain ⟨a, ha, hpa⟩ := hB
      rw [Bool.and_eq_true, decide_eq_true_eq, decide_eq_true_eq] at hpa
      obtain ⟨h0, hcc⟩ := hpa
      rw [← hmc, hnil] at hcc
      exact canonicalCodeAt_ne_nil _ _ _ hcc.symm
    · have hrep : isReplay t.lastValidatedCode (cleanUserInputFormat code) = true := by
        rw [hm, isReplay, ← hmc]
        simp [List.isEmpty_iff, hnil]
      simp [hrep]

/-- Whenever `Totp.validate` returns false, the engine state is returned
    unchanged. -/
theorem totpValidate_reject_frame (t : Totp) (code : List Char) (seconds : Int)
    (se vaw : Option Bool) : ∀ r t', totpValidate t code seconds se vaw = .ok (r, t') →
    r = false → t' = t := by
  intro r t' hok hr
  subst hr
  rcases hsc : totpScan t.secret t.digits code (calculateMovingFactor t.stepSize seconds)
      (attemptList (if vaw.getD false then t.validationWindow else 0)) with e | b
  · simp only [totpValidate, hsc] at hok
    cases hok
  · simp only [totpValidate, hsc] at hok
    cases b with
    | false =>
      simp only [Bool.false_eq_true, if_false] at hok
      cases hok
      rfl
    | true =>
      simp only [if_true] at hok
      by_cases hrep : isReplay t.lastValidatedCode (cleanUserInputFormat code) = true
      · rw [if_pos hrep] at hok
        cases hok
        rfl
      · rw [if_neg hrep] at hok
        by_cases hse : se.getD true = true
        · rw [if_pos hse] at hok
          rcases hg : generateCodeNoSideEffectsInt t.secret t.digits
              (calculateMovingFactor t.stepSize seconds) false with e | g
          · rw [hg] at hok
            cases hok
          · rw [hg] at hok
            cases hok
        · rw [if_neg hse] at hok
          cases hok

/-- C10: the replay check precedes the side-effects guard — a submitted
    code whose canonical form equals the stored marker is rejected whatever
    the side-effects option says — and any rejection returns the engine
    state unchanged. -/
theorem totp_replay_rejection_frame (t : Totp) (code : List Char) (seconds : Int)
    (se vaw : Option Bool) :
    (∀ marker, t.lastValidatedCode = some marker →
        marker = cleanUserInputFormat code →
        calculateMovingFactor t.stepSize seconds + (t.validationWindow : Int) < 2 ^ 64 →
        totpValidate t code seconds se vaw = .ok (false, t)) ∧
      (∀ r t', totpValidate t code seconds se vaw = .ok (r, t') → r = false → t' = t) :=
  ⟨fun marker hm hmc hbound => totpValidate_replay t code seconds se vaw marker hm hmc hbound,
    totpValidate_reject_frame t code seconds se vaw⟩

/-- Witness for C10 at the marked test engine: the resubmission of the
    base-step code is rejected with the state unchanged, with side effects
    disabled and the default window. -/
theorem totp_replay_rejection_frame_witness :
    rfcTotp8Marked07.lastValidatedCode = some (("07081804").toList) ∧
      ("07081804").toList = cleanUserInputFormat (("0708 1804").toList) ∧
      totpValidate rfcTotp8Marked07 (("0708 1804").toList) 1111111109 (some false) none =
        .ok (false, rfcTotp8Marked07) :=
  ⟨rfl, by decide,
    (totp_replay_rejection_frame rfcTotp8Marked07 (("0708 1804").toList) 1111111109
        (some false) none).1 (("07081804").toList) rfl (by decide) (by decide)⟩

/-- Counterexample to C1: at time 1111111109 (base step 37037036) the code
    generated at time+30 matches at step 37037037, yet after acceptance
    with side effects enabled `lastValidatedCode` holds the base-step code
    `"07081804"`, not the canonical form `"14050471"` of the matched step,
    and the immediate resubmission of the same correct in-window code is
    accepted again instead of rejected. -/
theorem totp_matched_step_replay_cex :
    canonicalCodeAt rfcSecret 8 37037037 = ("14050471").toList ∧
      cleanUserInputFormat (("1405 0471").toList) = ("14050471").toList ∧
      totpValidate rfcTotp8 (("1405 0471").toList) 1111111109 none (some true) =
        .ok (true, rfcTotp8Marked07) ∧
      rfcTotp8Marked07.lastValidatedCode ≠ some (("14050471").toList) ∧
      (totpValidate rfcTotp8Marked07 (("1405 0471").toList) 1111111109 none
          (some true)).map Prod.fst = .ok true :=
  ⟨rfl, by decide, rfl, by decide, rfl⟩

/-- C1 (amended): when `Totp.validate` accepts with side effects enabled
    (and a representable non-negative base step), `lastValidatedCode` is
    set to the canonical form of the code computed at the *base* step
    `calculatedMovingFactor` — not the matched step and not the raw caller
    input — and an immediate resubmission is rejected when the accepted
    code is the base-step code (a code matched elsewhere in the window can
    be accepted again). -/
theorem totp_lastValidated_base_step (t : Totp) (code : List Char) (seconds : Int)
    (se vaw : Option Bool) (t' : Totp)
    (hse : se.getD true = true)
    (hbase : 0 ≤ calculateMovingFactor t.stepSize seconds)
    (hbound : calculateMovingFactor t.stepSize seconds + (t.validationWindow : Int) < 2 ^ 64)
    (hacc : totpValidate t code seconds se vaw = .ok (true, t')) :
    t'.lastValidatedCode = some (canonicalCodeAt t.secret t.digits
        (calculateMovingFactor t.stepSize seconds).toNat) ∧
      (cleanUserInputFormat code = canonicalCodeAt t.secret t.digits
          (calculateMovingFactor t.stepSize seconds).toNat →
        (totpValidate t' code seconds se vaw).map Prod.fst = .ok false) := by
  rcases hsc : totpScan t.secret t.digits code (calculateMovingFactor t.stepSize seconds)
      (attemptList (if vaw.getD false then t.validationWindow else 0)) with e | b
  · simp only [totpValidate, hsc] at hacc
    cases hacc
  · simp only [totpValidate, hsc] at hacc
    cases b with
    | false => simp at hacc
    | true =>
      rw [if_pos (rfl : true = true)] at hacc
      by_cases hrep : isReplay t.lastValidatedCode (cleanUserInputFormat code) = true
      · rw [if_pos hrep] at hacc
        simp at hacc
      · rw [if_neg hrep, if_pos hse] at hacc
        have hti : generateCodeNoSideEffectsInt t.secret t.digits
            (calculateMovingFactor t.stepSize seconds) false =
              .ok (canonicalCodeAt t.secret t.digits
                (calculateMovingFactor t.stepSize seconds).toNat) := by
          rw [generateCodeNoSideEffectsInt, if_neg (not_lt.mpr hbase)]
          exact generate_ok_raw _ _ _ (by omega)
        rw [hti] at hacc
        cases hacc
        refine ⟨rfl, ?_⟩
        intro hclean
        rw [totpValidate_replay
          { secret := t.secret, digits := t.digits,
            validationWindow := t.validationWindow, stepSize := t.stepSize,
            lastValidatedCode := some (canonicalCodeAt t.secret t.digits
              (calculateMovingFactor t.stepSize seconds).toNat) }
          code seconds se vaw _ rfl hclean.symm hbound]
        rfl

/-- Witness for C1 at the test engine and the base-step code
    `"0708 1804"`: accepted with defaults, the marker becomes the
    base-step canonical code and the resubmission is rejected. -/
theorem totp_lastValidated_base_step_witness :
    totpValidate rfcTotp8 (("0708 1804").toList) 1111111109 none none =
        .ok (true, rfcTotp8Marked07) ∧
      (rfcTotp8Marked07.lastValidatedCode =
          some (canonicalCodeAt rfcTotp8.secret rfcTotp8.digits
            (calculateMovingFactor rfcTotp8.stepSize 1111111109).toNat) ∧
        (cleanUserInputFormat (("0708 1804").toList) =
            canonicalCodeAt rfcTotp8.secret rfcTotp8.digits
              (calculateMovingFactor rfcTotp8.stepSize 1111111109).toNat →
          (totpValidate rfcTotp8Marked07 (("0708 1804").toList) 1111111109 none
              none).map Prod.fst = .ok false)) :=
  ⟨rfl,
    totp_lastValidated_base_step rfcTotp8 (("0708 1804").toList) 1111111109 none none
      rfcTotp8Marked07 rfl (by decide) (by decide) rfl⟩

/-- With window-scanning explicitly enabled, `Totp.validate` accepts
    exactly a code matching some non-negative step of the symmetric window
    around the base step that is not barred by the replay marker. -/
theorem totpValidate_accept_iff (t : Totp) (code : List Char) (seconds : Int)
    (se : Option Bool)
    (hbase : 0 ≤ calculateMovingFactor t.stepSize seconds)
    (hbound : calculateMovingFactor t.stepSize seconds + (t.validationWindow : Int) < 2 ^ 64) :
    (totpValidate t code seconds se (some true)).map Prod.fst = .ok true ↔
      ((∃ step : Int,
          calculateMovingFactor t.stepSize seconds - (t.validationWindow : Int) ≤ step ∧
          step ≤ calculateMovingFactor t.stepSize seconds + (t.validationWindow : Int) ∧
          0 ≤ step ∧
          cleanUserInputFormat code = canonicalCodeAt t.secret t.digits step.toNat) ∧
        isReplay t.lastValidatedCode (cleanUserInputFormat code) = false) := by
  have hwin : (if (some true : Option Bool).getD false then t.validationWindow else 0) =
      t.validationWindow := rfl
  have hscan := totpScan_eq t.secret t.digits code (calculateMovingFactor t.stepSize seconds)
    (attemptList t.validationWindow)
    (by
      intro a ha
      rw [mem_attemptList] at ha
      omega)
  have hiff : (∃ step : Int,
      calculateMovingFactor t.stepSize seconds - (t.validationWindow : Int) ≤ step ∧
      step ≤ calculateMovingFactor t.stepSize seconds + (t.validationWindow : Int) ∧
      0 ≤ step ∧
      cleanUserInputFormat code = canonicalCodeAt t.secret t.digits step.toNat) ↔
      (attemptList t.validationWindow).any
        (fun a => decide (0 ≤ calculateMovingFactor t.stepSize seconds + a) &&
          decide (cleanUserInputFormat code =
            canonicalCodeAt t.secret t.digits
              ((calculateMovingFactor t.stepSize seconds + a).toNat))) = true := by
    rw [List.any_eq_true]
    constructor
    · rintro ⟨step, h1, h2, h3, h4⟩
      refine ⟨step - calculateMovingFactor t.stepSize seconds,
        (mem_attemptList _ _).mpr ⟨by omega, by omega⟩, ?_⟩
      rw [Bool.and_eq_true, decide_eq_true_eq, decide_eq_true_eq]
      have hstep : calculateMovingFactor t.stepSize seconds +
          (step - calculateMovingFactor t.stepSize seconds) = step := by omega
      rw [hstep]
      exact ⟨h3, h4⟩
    · rintro ⟨a, ha, hpa⟩
      rw [mem_attemptList] at ha
      rw [Bool.and_eq_true, decide_eq_true_eq, decide_eq_true_eq] at hpa
      exact ⟨calculateMovingFactor t.stepSize seconds + a, by omega, by omega,
        hpa.1, hpa.2⟩
  simp only [totpValidate, hwin, hscan]
  cases hB : (attemptList t.validationWindow).any
      (fun a => decide (0 ≤ calculateMovingFactor t.stepSize seconds + a) &&
        decide (cleanUserInputFormat code =
          canonicalCodeAt t.secret t.digits
            ((calculateMovingFactor t.stepSize seconds + a).toNat))) with
  | false =>
    rw [if_neg (by simp : ¬ false = true)]
    constructor
    · intro hcon
      simp [Except.map] at hcon
    · rintro ⟨hex, _⟩
      have hb := hiff.mp hex
      rw [hB] at hb
      cases hb
  | true =>
    by_cases hrep : isReplay t.lastValidatedCode (cleanUserInputFormat code) = true
    · rw [if_pos (rfl : true = true), if_pos hrep]
      refine iff_of_false (by simp [Except.map]) (fun hc => ?_)
      exact absurd hc.2 (by simp [hrep])
    · rw [if_pos (rfl : true = true), if_neg hrep]
      rw [Bool.not_eq_true] at hrep
      by_cases hse : se.getD true = true
      · rw [if_pos hse]
        have hti : generateCodeNoSideEffectsInt t.secret t.digits
            (calculateMovingFactor t.stepSize seconds) false =
              .ok (canonicalCodeAt t.secret t.digits
                (calculateMovingFactor t.stepSize seconds).toNat) := by
          rw [generateCodeNoSideEffectsInt, if_neg (not_lt.mpr hbase)]
          exact generate_ok_raw _ _ _ (by omega)
        rw [hti]
        exact iff_of_true rfl ⟨hiff.mpr hB, hrep⟩
      · rw [if_neg hse]
        exact iff_of_true rfl ⟨hiff.mpr hB, hrep⟩

/-- Counterexample to C3: validation with defaulted options does not scan
    the window — the code of the in-window step 37037037 at time
    1111111109 is rejected under the defaults — and even with
    window-scanning enabled a matching in-window code is rejected when the
    replay marker holds it. -/
theorem totp_window_default_cex :
    ((totpValidate rfcTotp8 (("1405 0471").toList) 1111111109 (some false) none).map
        Prod.fst = .ok false ∧
      cleanUserInputFormat (("1405 0471").toList) = canonicalCodeAt rfcSecret 8 37037037 ∧
      calculateMovingFactor rfcTotp8.stepSize 1111111109 = 37037036 ∧
      rfcTotp8.validationWindow = 1) ∧
      (totpValidate rfcTotp8Marked14 (("1405 0471").toList) 1111111109 (some false)
          (some true)).map Prod.fst = .ok false :=
  ⟨⟨rfl, rfl, rfl, rfl⟩, rfl⟩

/-- C3 (amended): with window-scanning explicitly enabled
    (`validateAgainstWindow: true`; when the option is absent the code
    scans only the base step), validation accepts a code exactly when it
    matches the code derived at some step in
    `[base - window, base + window]`, negative steps skipped, and the code
    is not barred by the replay marker; with step 30 and window 1 at time
    1111111109 the codes of `time`, `time + 30` and `time - 59` validate
    while those of `time + 31` and `time - 60` do not. -/
theorem totp_symmetric_window :
    (∀ (t : Totp) (code : List Char) (seconds : Int) (se : Option Bool),
        0 ≤ calculateMovingFactor t.stepSize seconds →
        calculateMovingFactor t.stepSize seconds + (t.validationWindow : Int) < 2 ^ 64 →
        ((totpValidate t code seconds se (some true)).map Prod.fst = .ok true ↔
          ((∃ step : Int,
              calculateMovingFactor t.stepSize seconds - (t.validationWindow : Int) ≤ step ∧
              step ≤ calculateMovingFactor t.stepSize seconds + (t.validationWindow : Int) ∧
              0 ≤ step ∧
              cleanUserInputFormat code = canonicalCodeAt t.secret t.digits step.toNat) ∧
            isReplay t.lastValidatedCode (cleanUserInputFormat code) = false))) ∧
      (totpGenerate rfcTotp8 1111111109 = .ok (("0708 1804").toList) ∧
        (totpValidate rfcTotp8 (("0708 1804").toList) 1111111109 (some false)
          (some true)).map Prod.fst = .ok true) ∧
      (totpGenerate rfcTotp8 (1111111109 + 30) = .ok (("1405 0471").toList) ∧
        (totpValidate rfcTotp8 (("1405 0471").toList) 1111111109 (some false)
          (some true)).map Prod.fst = .ok true) ∧
      (totpGenerate rfcTotp8 (1111111109 - 59) = .ok (("8973 1029").toList) ∧
        (totpValidate rfcTotp8 (("8973 1029").toList) 1111111109 (some false)
          (some true)).map Prod.fst = .ok true) ∧
      (totpGenerate rfcTotp8 (1111111109 + 31) = .ok (("4426 6759").toList) ∧
        (totpValidate rfcTotp8 (("4426 6759").toList) 1111111109 (some false)
          (some true)).map Prod.fst = .ok false) ∧
      (totpGenerate rfcTotp8 (1111111109 - 60) = .ok (("4815 0727").toList) ∧
        (totpValidate rfcTotp8 (("4815 0727").toList) 1111111109 (some false)
          (some true)).map Prod.fst = .ok false) :=
  ⟨fun t code seconds se hbase hbound =>
      totpValidate_accept_iff t code seconds se hbase hbound,
    ⟨rfl, rfl⟩, ⟨rfl, rfl⟩, ⟨rfl, rfl⟩, ⟨rfl, rfl⟩, ⟨rfl, rfl⟩⟩

/-- Witness for C3 instantiating the window characterisation at the test
    engine, a concrete code and time. -/
theorem totp_symmetric_window_witness :
    0 ≤ calculateMovingFactor rfcTotp8.stepSize 1111111109 ∧
      calculateMovingFactor rfcTotp8.stepSize 1111111109 +
        (rfcTotp8.validationWindow : Int) < 2 ^ 64 ∧
      ((totpValidate rfcTotp8 (("0708 1804").toList) 1111111109 (some false)
          (some true)).map Prod.fst = .ok true ↔
        ((∃ step : Int,
            calculateMovingFactor rfcTotp8.stepSize 1111111109 -
              (rfcTotp8.validationWindow : Int) ≤ step ∧
            step ≤ calculateMovingFactor rfcTotp8.stepSize 1111111109 +
              (rfcTotp8.validationWindow : Int) ∧
            0 ≤ step ∧
            cleanUserInputFormat (("0708 1804").toList) =
              canonicalCodeAt rfcTotp8.secret rfcTotp8.digits step.toNat) ∧
          isReplay rfcTotp8.lastValidatedCode
            (cleanUserInputFormat (("0708 1804").toList)) = false)) :=
  ⟨by decide, by decide,
    totp_symmetric_window.1 rfcTotp8 (("0708 1804").toList) 1111111109 (some false)
      (by decide) (by decide)⟩

/-- `Hotp.validate`, under in-range probes, answers whether some factor
    `base + i` of the scanned range matches the submitted code. -/
theorem hotpValidate_accepts (h : Hotp) (code : List Char) (mf : Option Nat)
    (se vaw : Option Bool)
    (hbound : mf.getD h.counter + (if vaw.getD true then h.validationWindow else 0) < 2 ^ 64) :
    (hotpValidate h code mf se vaw).map Prod.fst =
      .ok ((List.range ((if vaw.getD true then h.validationWindow else 0) + 1)).any
        (fun i => decide (cleanUserInputFormat code =
          canonicalCodeAt h.secret h.digits (mf.getD h.counter + i)))) := by
  have hscan := hotpScan_eq h.secret h.digits code (mf.getD h.counter)
    (List.range ((if vaw.getD true then h.validationWindow else 0) + 1))
    (by
      intro i hi
      rw [List.mem_range] at hi
      omega)
  simp only [hotpValidate, hscan]
  rfl

/-- Counterexample to C4: over the RFC secret with one digit, window 1 and
    counter 0, the code generated at factor `W + 1 = 2` (the one-digit code
    `"2"`) validates successfully, because one-digit codes collide (factor
    1 also derives 2). -/
theorem hotp_window_collision_cex :
    hotpGenerate rfcHotpD1 (some 2) (some false) = .ok ((("2").toList), rfcHotpD1) ∧
      (hotpValidate rfcHotpD1 (("2").toList) none (some false) (some true)).map
        Prod.fst = .ok true ∧
      canonicalCodeAt rfcSecret 1 1 = ("2").toList ∧
      canonicalCodeAt rfcSecret 1 2 = ("2").toList :=
  ⟨rfl, rfl, rfl, rfl⟩

/-- C4 (amended): with window-scanning enabled validation accepts exactly a
    code matching `base + i` for some `i ≤ validationWindow` (base the
    explicit factor or the counter); with scanning disabled only `base` is
    probed. With counter 0 and window `W`, a code generated at factor `W`
    validates; a code generated at factor `W + 1` fails to validate
    provided its code value differs from the codes at factors `0 … W` — as
    with the RFC secret, six digits and `W = 3` — though it can validate
    when the short codes collide. -/
theorem hotp_forward_window :
    (∀ (h : Hotp) (code : List Char) (mf : Option Nat) (se vaw : Option Bool),
        vaw.getD true = true →
        mf.getD h.counter + h.validationWindow < 2 ^ 64 →
        ((hotpValidate h code mf se vaw).map Prod.fst = .ok true ↔
          ∃ i, i ≤ h.validationWindow ∧
            cleanUserInputFormat code =
              canonicalCodeAt h.secret h.digits (mf.getD h.counter + i))) ∧
      (∀ (h : Hotp) (code : List Char) (mf : Option Nat) (se : Option Bool),
        mf.getD h.counter < 2 ^ 64 →
        ((hotpValidate h code mf se (some false)).map Prod.fst = .ok true ↔
          cleanUserInputFormat code =
            canonicalCodeAt h.secret h.digits (mf.getD h.counter))) ∧
      (∀ (h0 : Hotp) (c : List Char) (h' : Hotp), h0.counter = 0 →
        h0.validationWindow < 2 ^ 64 →
        hotpGenerate h0 (some h0.validationWindow) (some false) = .ok (c, h') →
        (hotpValidate h0 c none none none).map Prod.fst = .ok true) ∧
      (∀ (h0 : Hotp) (c : List Char) (h' : Hotp), h0.counter = 0 →
        h0.validationWindow + 1 < 2 ^ 64 →
        (∀ i, i ≤ h0.validationWindow →
          canonicalCodeAt h0.secret h0.digits i ≠
            canonicalCodeAt h0.secret h0.digits (h0.validationWindow + 1)) →
        hotpGenerate h0 (some (h0.validationWindow + 1)) (some false) = .ok (c, h') →
        (hotpValidate h0 c none none none).map Prod.fst = .ok false) ∧
      (hotpGenerate rfcHotpW3 (some 4) (some false) =
          .ok ((("338 314").toList), rfcHotpW3) ∧
        (hotpValidate rfcHotpW3 (("338 314").toList) none (some false)
          (some true)).map Prod.fst = .ok false) := by
  have hwin : ∀ (vaw : Option Bool), vaw.getD true = true →
      ∀ w : Nat, (if vaw.getD true then w else 0) = w := by
    intro vaw hvaw w
    rw [hvaw]
    exact if_pos rfl
  refine ⟨?_, ?_, ?_, ?_, rfl, rfl⟩
  · intro h code mf se vaw hvaw hbound
    rw [hotpValidate_accepts h code mf se vaw (by rw [hwin vaw hvaw]; exact hbound)]
    rw [hwin vaw hvaw]
    constructor
    · intro hacc
      have hany := Except.ok.inj hacc
      rw [List.any_eq_true] at hany
      obtain ⟨i, hi, hp⟩ := hany
      rw [List.mem_range] at hi
      rw [decide_eq_true_eq] at hp
      exact ⟨i, by omega, hp⟩
    · rintro ⟨i, hi, hp⟩
      have hany : (List.range (h.validationWindow + 1)).any
          (fun i => decide (cleanUserInputFormat code =
            canonicalCodeAt h.secret h.digits (mf.getD h.counter + i))) = true := by
        rw [List.any_eq_true]
        exact ⟨i, List.mem_range.mpr (by omega), by simp [hp]⟩
      rw [hany]
  · intro h code mf se hbound
    rw [hotpValidate_accepts h code mf se (some false) (by simpa using hbound)]
    have h2 : (if (some false : Option Bool).getD true then h.validationWindow else 0) = 0 :=
      rfl
    rw [h2]
    have h3 : List.range (0 + 1) = [0] := rfl
    rw [h3]
    simp [List.any_cons, List.any_nil, decide_eq_true_eq]
  · intro h0 c h' hc0 hW hacc
    simp only [hotpGenerate, Option.getD_some,
      generate_ok_formatted h0.secret h0.digits h0.validationWindow hW] at hacc
    have hc : c = formatCode (otpCodeValue h0.secret h0.digits h0.validationWindow)
        h0.digits := by
      cases hacc
      rfl
    subst hc
    rw [hotpValidate_accepts h0 _ none none none
      (by
        have h1 : (none : Option Nat).getD h0.counter = h0.counter := rfl
        have h2 : (if (none : Option Bool).getD true then h0.validationWindow else 0) =
          h0.validationWindow := rfl
        rw [h1, h2, hc0]
        omega)]
    have h1 : (none : Option Nat).getD h0.counter = h0.counter := rfl
    have h2 : (if (none : Option Bool).getD true then h0.validationWindow else 0) =
        h0.validationWindow := rfl
    rw [h1, h2]
    have hany : (List.range (h0.validationWindow + 1)).any
        (fun i => decide (cleanUserInputFormat
          (formatCode (otpCodeValue h0.secret h0.digits h0.validationWindow) h0.digits) =
            canonicalCodeAt h0.secret h0.digits (h0.counter + i))) = true := by
      rw [List.any_eq_true]
      refine ⟨h0.validationWindow, List.mem_range.mpr (by omega), ?_⟩
      rw [decide_eq_true_eq, clean_formatCode, hc0, Nat.zero_add]
      rfl
    rw [hany]
  · intro h0 c h' hc0 hW hne hacc
    simp only [hotpGenerate, Option.getD_some,
      generate_ok_formatted h0.secret h0.digits (h0.validationWindow + 1) (by omega)] at hacc
    have hc : c = formatCode (otpCodeValue h0.secret h0.digits (h0.validationWindow + 1))
        h0.digits := by
      cases hacc
      rfl
    subst hc
    rw [hotpValidate_accepts h0 _ none none none
      (by
        have h1 : (none : Option Nat).getD h0.counter = h0.counter := rfl
        have h2 : (if (none : Option Bool).getD true then h0.validationWindow else 0) =
          h0.validationWindow := rfl
        rw [h1, h2, hc0]
        omega)]
    have h1 : (none : Option Nat).getD h0.counter = h0.counter := rfl
    have h2 : (if (none : Option Bool).getD true then h0.validationWindow else 0) =
        h0.validationWindow := rfl
    rw [h1, h2]
    have hany : (List.range (h0.validationWindow + 1)).any
        (fun i => decide (cleanUserInputFormat
          (formatCode (otpCodeValue h0.secret h0.digits (h0.validationWindow + 1))
            h0.digits) =
            canonicalCodeAt h0.secret h0.digits (h0.counter + i))) = false := by
      rw [List.any_eq_false]
      intro i hi
      rw [List.mem_range] at hi
      simp only [decide_eq_true_eq]
      intro heq
      rw [clean_formatCode_canonical, hc0, Nat.zero_add] at heq
      exact hne i (by omega) heq.symm
    rw [hany]

/-- Witness for C4 instantiating the no-window characterisation at the
    test engine with the base RFC code. -/
theorem hotp_forward_window_witness :
    (none : Option Nat).getD rfcHotp.counter < 2 ^ 64 ∧
      ((hotpValidate rfcHotp (("755 224").toList) none (some false) (some false)).map
          Prod.fst = .ok true ↔
        cleanUserInputFormat (("755 224").toList) =
          canonicalCodeAt rfcHotp.secret rfcHotp.digits
            ((none : Option Nat).getD rfcHotp.counter)) :=
  ⟨by decide,
    hotp_forward_window.2.1 rfcHotp (("755 224").toList) none (some false) (by decide)⟩
